import Mathlib

/-!
Verification of the gnoic file-stat component (`app/fileStat.go`).

The development embeds the per-target recursive walker (`fileStat` /
`FileStat`), the outcome aggregation loop of `RunEFileStat`, and the
table-shaping logic of `statTable` as executable Lean functions, and proves
the specified properties about them.  The remote stat service and the
directory-classification probe are external collaborators of the component
and are modelled as an abstract `Probe` record of pure functions; the Go
code's unbounded recursion is modelled with an explicit fuel parameter
(exhausted fuel behaves like a stat error).
-/

namespace Gnoic

/-- One metadata entry of a stat response (`file.StatInfo` fields used by the
component: path, size, last-modified, permission bits, umask bits). -/
structure StatInfo where
  path : String
  size : Nat
  lastModified : Nat
  permissions : Nat
  umask : Nat
deriving DecidableEq

/-- A walker result entry (`fileStatInfo`): the stat entry together with the
directory-classification result obtained for it. -/
structure FileStatInfo where
  si : StatInfo
  isDir : Bool
deriving DecidableEq

/-- The external remote file probe (spec §6): `Stat` returns zero or more
entries or an error, `isDir` classifies a path as directory or not.  The
`isDir` helper of the Go repository is not part of the embedded source file;
per the spec it is the external `IsDirectory(path) -> (bool, error)`
capability. -/
structure Probe where
  stat : String → Except String (List StatInfo)
  isDir : String → Except String Bool

/-- Entries contributed by a nested recursive call (`fileStat.go:134-143`):
a nested stat error is logged and the subtree is skipped, otherwise the
returned entries are appended. -/
def subEntries (res : Except String (List FileStatInfo)) : List FileStatInfo :=
  match res with
  | Except.error _ => []
  | Except.ok l => l

/-- The recursive walker for one path (`fileStat`, `fileStat.go:112-146`).
For each entry of the stat response: classify via `isDir`; on classification
error the loop `continue`s (the entry is dropped); otherwise the entry is
appended, and if it is a directory and recursion is enabled the recursive
results are appended immediately after it.  Only the walker's own stat call
error is returned.  `fuel` bounds the recursion depth; the Go code has no
such bound. -/
def fileStat (probe : Probe) (recursive : Bool) : Nat → String → Except String (List FileStatInfo)
  | 0, _ => Except.error "max recursion depth reached"
  | fuel + 1, path =>
    match probe.stat path with
    | Except.error e => Except.error e
    | Except.ok stats =>
      Except.ok (stats.flatMap fun si =>
        match probe.isDir si.path with
        | Except.error _ => []
        | Except.ok d =>
          FileStatInfo.mk si d ::
            (if d && recursive then subEntries (fileStat probe recursive fuel si.path) else []))

/-- The walker over all seed paths (`FileStat`, `fileStat.go:99-110`): seeds
are processed in order, any per-seed error aborts the whole walk, results
are concatenated in seed order. -/
def FileStat (probe : Probe) (recursive : Bool) (fuel : Nat) : List String → Except String (List FileStatInfo)
  | [] => Except.ok []
  | p :: rest =>
    match fileStat probe recursive fuel p with
    | Except.error e => Except.error e
    | Except.ok fsi =>
      match FileStat probe recursive fuel rest with
      | Except.error e => Except.error e
      | Except.ok acc => Except.ok (fsi ++ acc)

deriving instance DecidableEq for Except

/-- A per-target outcome (`fileStatResponse` with its embedded `TargetError`):
target identity, the error (if any), and the walker's entries. -/
structure FileStatResponse where
  TargetName : String
  Err : Option String
  rsp : List FileStatInfo
deriving DecidableEq

/-- The error wrapping of `RunEFileStat`
(`fmt.Errorf("%q File Stat failed: %v", ...)`, `fileStat.go:87`). -/
def wrapErr (name msg : String) : String :=
  "\"" ++ name ++ "\" File Stat failed: " ++ msg

/-- The aggregation loop of `RunEFileStat` (`fileStat.go:83-93`): outcomes
with an error are wrapped and collected into `errs`, the others into
`result`, both in arrival order. -/
def aggregate : List FileStatResponse → List String × List FileStatResponse
  | [] => ([], [])
  | r :: rest =>
    let p := aggregate rest
    match r.Err with
    | some e => (wrapErr r.TargetName e :: p.1, p.2)
    | none => (p.1, r :: p.2)

/-- The thirteen mode-type characters of Go's `os.FileMode.String`, in bit
order 31 down to 19. -/
def modeTypeChars : List Char := ['d', 'a', 'l', 'T', 'L', 'D', 'p', 'S', 'u', 'g', 'c', 't', '?']

/-- The nine permission characters of Go's `os.FileMode.String`, in bit
order 8 down to 0. -/
def modeRwxChars : List Char := ['r', 'w', 'x', 'r', 'w', 'x', 'r', 'w', 'x']

/-- Model of Go's `os.FileMode.String()` (the standard-library rendering
used at `fileStat.go:153` and `:176`): the set type bits among bits 31..19
in order, `-` if none are set, followed by nine `rwx`-or-`-` characters for
bits 8..0.  The output is ASCII, so Go's byte slicing coincides with
character operations. -/
def fileModeString (m : Nat) : String :=
  let typePart := (List.range 13).filterMap fun i =>
    if m.testBit (31 - i) then modeTypeChars[i]? else none
  let head := if typePart.isEmpty then ['-'] else typePart
  let rwx := (List.range 9).map fun i =>
    if m.testBit (8 - i) then (modeRwxChars[i]?).getD '-' else '-'
  String.mk (head ++ rwx)

/-- The permission column of `statTable` (`fileStat.go:153-156`): the
permission bits masked (bitwise AND) with the umask bits are rendered, and
for a directory entry the first character is replaced by `d`. -/
def permString (si : StatInfo) (isDir : Bool) : String :=
  let p := fileModeString (si.permissions &&& si.umask)
  if isDir then "d" ++ (p.drop 1) else p

/-- The external rendering helpers used by `statTable` for the LastModified
and Size columns (`time.Format`, `humanize.Time`, `humanize.Bytes`,
`strconv.Itoa`); they are collaborators outside the component, kept
abstract. -/
structure Renderers where
  lastModRaw : Nat → String
  lastModHuman : Nat → String
  sizeRaw : Nat → String
  sizeHuman : Nat → String

/-- One table row built by `statTable` (`fileStat.go:157-178`): target name,
path, last-modified, permission string, umask string, size. -/
def statRow (rd : Renderers) (humanize : Bool) (targetName : String) (fsi : FileStatInfo) : List String :=
  [targetName,
   fsi.si.path,
   if humanize then rd.lastModHuman fsi.si.lastModified else rd.lastModRaw fsi.si.lastModified,
   permString fsi.si fsi.isDir,
   fileModeString fsi.si.umask,
   if humanize then rd.sizeHuman fsi.si.size else rd.sizeRaw fsi.si.size]

/-- The `targets` slice of `statTable` (`fileStat.go:166-169`): a target
name is appended at the first processed entry carrying it (`seen` models the
keys already present in the `targetTabData` map); a response with no
entries never registers its name. -/
def tableTargetsAux : List String → List FileStatResponse → List String
  | _, [] => []
  | seen, rsp :: rest =>
    if rsp.rsp = [] ∨ rsp.TargetName ∈ seen then tableTargetsAux seen rest
    else rsp.TargetName :: tableTargetsAux (rsp.TargetName :: seen) rest

/-- The target-name list of `statTable` before sorting. -/
def tableTargets (r : List FileStatResponse) : List String :=
  tableTargetsAux [] r

/-- The rows accumulated under one target name in `targetTabData`
(`fileStat.go:171-178`): every response carrying that name contributes its
entries' rows, in arrival order. -/
def tableRows (rd : Renderers) (humanize : Bool) (r : List FileStatResponse) (name : String) : List (List String) :=
  r.flatMap fun rsp =>
    if rsp.TargetName = name then rsp.rsp.map (statRow rd humanize rsp.TargetName) else []

/-- The row comparison of `statTable`'s per-target sort
(`fileStat.go:182-186`): rows are compared by their path column. -/
def rowLE (a b : List String) : Prop := a.getD 1 "" ≤ b.getD 1 ""

instance : DecidableRel rowLE :=
  fun a b => inferInstanceAs (Decidable (a.getD 1 "" ≤ b.getD 1 ""))

/-- The table content produced by `statTable` (`fileStat.go:148-200`) as the
ordered list of rows passed to the table writer: target names sorted
lexicographically, and within each target the rows sorted by path. -/
def statTable (rd : Renderers) (humanize : Bool) (r : List FileStatResponse) : List (List String) :=
  (List.insertionSort (fun a b : String => a ≤ b) (tableTargets r)).flatMap fun name =>
    List.insertionSort rowLE (tableRows rd humanize r name)

/-- Modelled from the spec: the entries a non-recursive walk keeps for one
stat response — the returned entries whose directory classification
succeeded, in response order (used to state the amended C5). -/
def nonRecEntries (probe : Probe) (stats : List StatInfo) : List FileStatInfo :=
  stats.filterMap fun si =>
    match probe.isDir si.path with
    | Except.error _ => none
    | Except.ok d => some (FileStatInfo.mk si d)

/-- Modelled from the spec (§4.2): the reference depth-first pre-order walk.
Entries of one stat response are processed in response order; each entry is
emitted, and a directory entry is immediately followed by its recursively
obtained entries (a nested stat error skips just that subtree); an entry
whose classification fails is retained without recursion, as the spec
words it. -/
def specWalk (probe : Probe) (recursive : Bool) : Nat → String → Except String (List FileStatInfo)
  | 0, _ => Except.error "max recursion depth reached"
  | fuel + 1, path =>
    match probe.stat path with
    | Except.error e => Except.error e
    | Except.ok stats =>
      Except.ok (stats.flatMap fun si =>
        match probe.isDir si.path with
        | Except.error _ => [FileStatInfo.mk si false]
        | Except.ok d =>
          FileStatInfo.mk si d ::
            (if d && recursive then subEntries (specWalk probe recursive fuel si.path) else []))

/-- Modelled from the spec (§4.2): the reference walk over all seed paths,
seeds in caller-given order. -/
def specWalkSeeds (probe : Probe) (recursive : Bool) (fuel : Nat) : List String → Except String (List FileStatInfo)
  | [] => Except.ok []
  | p :: rest =>
    match specWalk probe recursive fuel p with
    | Except.error e => Except.error e
    | Except.ok fsi =>
      match specWalkSeeds probe recursive fuel rest with
      | Except.error e => Except.error e
      | Except.ok acc => Except.ok (fsi ++ acc)

/-- Path `q` strictly extends path `p`: `p` is a proper prefix of `q`. -/
def strictExtension (p q : String) : Prop :=
  p.data <+: q.data ∧ p.data.length < q.data.length

/-- Two paths are prefix-incomparable: neither is a prefix of the other. -/
def incomparable (p q : String) : Prop :=
  ¬ p.data <+: q.data ∧ ¬ q.data <+: p.data

/-- A stat oracle is tree-like when every successful stat response lists
pairwise prefix-incomparable paths, each strictly extending the queried
path (used to state the amended C3). -/
def treeLike (probe : Probe) : Prop :=
  ∀ p stats, probe.stat p = Except.ok stats →
    stats.Pairwise (fun a b => incomparable a.path b.path) ∧
    ∀ si ∈ stats, strictExtension p si.path

/-- An atomic access of a dispatcher goroutine to the closure-captured `err`
variable of `RunEFileStat` (`fileStat.go:44,60-61`): `write` models the
assignment `err = a.CreateGrpcClient(...)` (line 60, plain `=`, so it
targets the variable shared by all goroutines), `check` models the read in
`if err != nil` (line 61). -/
inductive RaceOp where
  | write : RaceOp
  | check : RaceOp
deriving DecidableEq

/-- The state of the shared `err` variable together with the value each
goroutine observed at its `if err != nil` check. -/
structure RaceState where
  errVar : Option String
  observed : List (Nat × Option String)
deriving DecidableEq

/-- One interleaved step: goroutine `i` either stores its connection result
into the shared `err` variable or reads the shared variable at its
nil-check. -/
def raceStep (connRes : Nat → Option String) (s : RaceState) : Nat × RaceOp → RaceState
  | (i, RaceOp.write) => { s with errVar := connRes i }
  | (i, RaceOp.check) => { s with observed := s.observed ++ [(i, s.errVar)] }

/-- Run the goroutines' accesses to the shared `err` variable under a given
interleaving (schedule). -/
def runRace (connRes : Nat → Option String) (sched : List (Nat × RaceOp)) : RaceState :=
  sched.foldl (raceStep connRes) ⟨none, []⟩

/-! ## Basic walker lemmas -/

/-- Unfolding equation of `fileStat` at positive fuel. -/
theorem fileStat_succ (probe : Probe) (recursive : Bool) (fuel : Nat) (path : String) :
    fileStat probe recursive (fuel + 1) path =
      match probe.stat path with
      | Except.error e => Except.error e
      | Except.ok stats =>
        Except.ok (stats.flatMap fun si =>
          match probe.isDir si.path with
          | Except.error _ => []
          | Except.ok d =>
            FileStatInfo.mk si d ::
              (if d && recursive then subEntries (fileStat probe recursive fuel si.path) else [])) := rfl

/-- Every entry the walker keeps carries the successful answer of the
directory-classification probe for its path; in particular no entry whose
classification errored is ever in the result. -/
theorem fileStat_isDir_ok (probe : Probe) (recursive : Bool) :
    ∀ fuel path l, fileStat probe recursive fuel path = Except.ok l →
      ∀ e ∈ l, probe.isDir e.si.path = Except.ok e.isDir := by
  intro fuel
  induction fuel with
  | zero => intro path l h; exact absurd h (by simp [fileStat])
  | succ n ih =>
    intro path l h e he
    rw [fileStat_succ] at h
    cases hstat : probe.stat path with
    | error err => rw [hstat] at h; cases h
    | ok stats =>
      rw [hstat] at h
      injection h with h
      subst h
      rcases List.mem_flatMap.mp he with ⟨si, hsi, hei⟩
      cases hd : probe.isDir si.path with
      | error err => rw [hd] at hei; cases hei
      | ok d =>
        rw [hd] at hei
        rcases List.mem_cons.mp hei with rfl | hsub
        · exact hd
        · by_cases hrec : (d && recursive) = true
          · rw [if_pos hrec] at hsub
            cases hrec2 : fileStat probe recursive n si.path with
            | error err2 => rw [hrec2] at hsub; cases hsub
            | ok sub =>
              rw [hrec2] at hsub
              exact ih si.path sub hrec2 e hsub
          · rw [if_neg hrec] at hsub; cases hsub

/-- With positive fuel, the walker for one path succeeds exactly when its
own stat call succeeds: errors arising inside recursion are absorbed. -/
theorem fileStat_ok_iff (probe : Probe) (recursive : Bool) (fuel : Nat) (path : String) :
    (∃ l, fileStat probe recursive (fuel + 1) path = Except.ok l) ↔
      ∃ stats, probe.stat path = Except.ok stats := by
  rw [fileStat_succ]
  cases hstat : probe.stat path with
  | error e => simp
  | ok stats => simp

/-- The walk over all seeds succeeds exactly when the walk for each seed
succeeds. -/
theorem FileStat_ok_iff (probe : Probe) (recursive : Bool) (fuel : Nat) (seeds : List String) :
    (∃ l, FileStat probe recursive fuel seeds = Except.ok l) ↔
      ∀ p ∈ seeds, ∃ l, fileStat probe recursive fuel p = Except.ok l := by
  induction seeds with
  | nil => simp [FileStat]
  | cons p rest ih =>
    simp only [FileStat, List.forall_mem_cons]
    cases hp : fileStat probe recursive fuel p with
    | error e => simp [hp]
    | ok fsi =>
      cases hr : FileStat probe recursive fuel rest with
      | error e => simp [hp, ← ih, hr]
      | ok acc => simp [hp, ← ih, hr]

/-! ## Claim C2: fatal top-level stat errors, non-fatal nested ones -/

/-- Claim C2 (confirmed): for every target walk with positive fuel, the walk
returns a success outcome exactly when the top-level stat call of every seed
path succeeds; a seed-path stat error makes the whole walk return an error
(hence no entries), while stat errors occurring inside recursion are
absorbed and the walk still succeeds with the remaining siblings and
seeds. -/
theorem c2_seed_stat_fatal_nested_nonfatal (probe : Probe) (recursive : Bool) (fuel : Nat)
    (seeds : List String) :
    (∃ l, FileStat probe recursive (fuel + 1) seeds = Except.ok l) ↔
      ∀ p ∈ seeds, ∃ stats, probe.stat p = Except.ok stats := by
  rw [FileStat_ok_iff]
  exact forall_congr' fun p => imp_congr_right fun _ => fileStat_ok_iff probe recursive fuel p

/-! ## Claim C1: classification failure drops the entry -/

/-- Probe whose only stat response lists one entry and whose classification
probe always fails. -/
def c1probe : Probe where
  stat := fun p => if p = "/a" then Except.ok [⟨"/a/f", 0, 0, 0, 0⟩] else Except.ok []
  isDir := fun _ => Except.error "isDir failed"

/-- Claim C1 (counterexample): the stat call for `/a` returns the entry
`/a/f`, its directory classification errors, and the walker's result is the
empty list — the entry is removed from the result, not kept as a
non-recursing entry as the claim states. -/
theorem c1_counterexample :
    c1probe.stat "/a" = Except.ok [⟨"/a/f", 0, 0, 0, 0⟩] ∧
    c1probe.isDir "/a/f" = Except.error "isDir failed" ∧
    fileStat c1probe true 2 "/a" = Except.ok [] :=
  ⟨rfl, rfl, rfl⟩

/-- Claim C1 (amended, theorem): a directory-classification failure is
non-fatal but drops the entry entirely: whenever the top-level stat call
succeeds the walk still returns a success outcome, and every entry of the
result carries a successful classification — an entry whose classification
probe errored is absent from the result. -/
theorem c1_amended_classification_error_drops (probe : Probe) (recursive : Bool) (fuel : Nat)
    (path : String) (stats : List StatInfo) (h : probe.stat path = Except.ok stats) :
    ∃ l, fileStat probe recursive (fuel + 1) path = Except.ok l ∧
      ∀ e ∈ l, probe.isDir e.si.path = Except.ok e.isDir := by
  rcases (fileStat_ok_iff probe recursive fuel path).mpr ⟨stats, h⟩ with ⟨l, hl⟩
  exact ⟨l, hl, fileStat_isDir_ok probe recursive (fuel + 1) path l hl⟩

/-- Probe with one entry whose classification fails and one whose
classification succeeds. -/
def c1wprobe : Probe where
  stat := fun p =>
    if p = "/a" then Except.ok [⟨"/a/bad", 0, 0, 0, 0⟩, ⟨"/a/ok", 0, 0, 0, 0⟩]
    else Except.ok []
  isDir := fun q => if q = "/a/bad" then Except.error "isDir failed" else Except.ok false

/-- Claim C1 (witness): the amended theorem applied to `c1wprobe` at seed
`/a`. -/
theorem c1_amended_witness :
    ∃ l, fileStat c1wprobe true 2 "/a" = Except.ok l ∧
      ∀ e ∈ l, c1wprobe.isDir e.si.path = Except.ok e.isDir :=
  c1_amended_classification_error_drops c1wprobe true 1 "/a"
    [⟨"/a/bad", 0, 0, 0, 0⟩, ⟨"/a/ok", 0, 0, 0, 0⟩] rfl

/-! ## Claim C5: non-recursive mode -/

/-- Probe for the C5 counterexample: one top-level entry, classification
always errors. -/
def c5probe : Probe where
  stat := fun p => if p = "/a" then Except.ok [⟨"/a/f", 0, 0, 0, 0⟩] else Except.ok []
  isDir := fun _ => Except.error "classify failed"

/-- Claim C5 (counterexample): with `recursive = false` the top-level stat
call for `/a` returns one entry, yet the walker's result is empty because
the entry's classification errored — the result does not consist exactly of
the entries returned by the top-level stat calls. -/
theorem c5_counterexample :
    c5probe.stat "/a" = Except.ok [⟨"/a/f", 0, 0, 0, 0⟩] ∧
    fileStat c5probe false 1 "/a" = Except.ok [] :=
  ⟨rfl, rfl⟩

/-- Modelled from the spec words of the amended C5: the recursion-free walk
over the seed paths — for each seed in order, only its top-level stat call,
keeping the entries whose classification succeeded. -/
def flatStatSeeds (probe : Probe) : List String → Except String (List FileStatInfo)
  | [] => Except.ok []
  | p :: rest =>
    match Except.map (nonRecEntries probe) (probe.stat p) with
    | Except.error e => Except.error e
    | Except.ok fsi =>
      match flatStatSeeds probe rest with
      | Except.error e => Except.error e
      | Except.ok acc => Except.ok (fsi ++ acc)

/-- With `recursive = false` the single-path walk evaluates the top-level
stat call only, keeping exactly the entries whose classification succeeded;
the right-hand side makes no recursive call and is independent of fuel. -/
theorem fileStat_nonrecursive (probe : Probe) (fuel : Nat) (path : String) :
    fileStat probe false (fuel + 1) path = Except.map (nonRecEntries probe) (probe.stat path) := by
  rw [fileStat_succ]
  cases hstat : probe.stat path with
  | error e => simp [Except.map]
  | ok stats =>
    simp only [Except.map]
    congr 1
    clear hstat
    induction stats with
    | nil => simp [nonRecEntries]
    | cons si rest ih =>
      simp only [List.flatMap_cons, nonRecEntries, List.filterMap_cons] at *
      cases hd : probe.isDir si.path with
      | error err => simpa [hd] using ih
      | ok d => simpa [hd] using ih

/-- Claim C5 (amended, theorem): with the recursive flag false and positive
fuel, the walker performs no recursive stat calls — for every input its
result equals the recursion-free seed-order walk `flatStatSeeds`, which
issues only the top-level stat calls and keeps exactly the entries whose
directory classification succeeded. -/
theorem c5_amended_nonrecursive (probe : Probe) (fuel : Nat) (seeds : List String) :
    FileStat probe false (fuel + 1) seeds = flatStatSeeds probe seeds := by
  induction seeds with
  | nil => rfl
  | cons p rest ih =>
    show (match fileStat probe false (fuel + 1) p with
      | Except.error e => Except.error e
      | Except.ok fsi =>
        match FileStat probe false (fuel + 1) rest with
        | Except.error e => Except.error e
        | Except.ok acc => Except.ok (fsi ++ acc)) = _
    rw [fileStat_nonrecursive, ih]
    rfl

/-! ## Claim C9: the shared `err` variable race -/

/-- Connection results for the C9 schedule: goroutine 0's connection fails,
goroutine 1's succeeds. -/
def c9connRes : Nat → Option String :=
  fun i => if i = 0 then some "connection refused" else none

/-- A schedule respecting each goroutine's program order (its write to the
shared `err` precedes its nil-check): both goroutines store their connection
results before goroutine 0 reaches its `if err != nil`. -/
def c9sched : List (Nat × RaceOp) :=
  [(0, RaceOp.write), (1, RaceOp.write), (0, RaceOp.check), (1, RaceOp.check)]

/-- Claim C9 (code bug, demonstration): goroutine 0's connection attempt
fails, yet under the interleaving `c9sched` its `if err != nil` check
observes `none`, because goroutine 1's assignment to the closure-captured
shared `err` variable (`err =` at `fileStat.go:60` rebinds the `err`
declared at line 44, shared by every goroutine) overwrote it; so goroutine 0
proceeds as if its connection had succeeded.  One target's work altered the
error observed by another target's unit, contradicting the isolation the
claim describes. -/
theorem c9_shared_err_race :
    c9connRes 0 = some "connection refused" ∧
    (runRace c9connRes c9sched).observed = [(0, none), (1, none)] :=
  ⟨rfl, rfl⟩

/-! ## Claim C7: permission rendering -/

/-- Claim C7 (confirmed): the rendered permission column is derived from the
permission bits bitwise-ANDed with the umask bits; for a directory entry its
first character is the marker `d` regardless of the masked bits, and for a
non-directory entry the whole string — its first character included — is
exactly the rendering of the masked bits. -/
theorem c7_directory_marker (rd : Renderers) (humanize : Bool) (name : String) (si : StatInfo) :
    (statRow rd humanize name (FileStatInfo.mk si true)).getD 3 "" =
        "d" ++ (fileModeString (si.permissions &&& si.umask)).drop 1 ∧
    ((statRow rd humanize name (FileStatInfo.mk si true)).getD 3 "").data.head? = some 'd' ∧
    (statRow rd humanize name (FileStatInfo.mk si false)).getD 3 "" =
        fileModeString (si.permissions &&& si.umask) := by
  refine ⟨rfl, ?_, rfl⟩
  show ("d" ++ (fileModeString (si.permissions &&& si.umask)).drop 1).data.head? = some 'd'
  rw [String.data_append]
  rfl

/-! ## Claim C10: a successful target with zero entries is absent -/

/-- Removing a response with an empty entry list from anywhere in the
arrival order leaves the registered target-name list unchanged, for any set
of already-seen names. -/
theorem tableTargetsAux_middle_empty (name : String) (err : Option String)
    (l₁ l₂ : List FileStatResponse) :
    ∀ seen, tableTargetsAux seen (l₁ ++ FileStatResponse.mk name err [] :: l₂) =
      tableTargetsAux seen (l₁ ++ l₂) := by
  induction l₁ with
  | nil =>
    intro seen
    simp only [List.nil_append, tableTargetsAux]
    rw [if_pos (Or.inl trivial)]
  | cons a l₁ ih =>
    intro seen
    simp only [List.cons_append, tableTargetsAux]
    by_cases h : a.rsp = [] ∨ a.TargetName ∈ seen
    · rw [if_pos h, if_pos h]
      exact ih seen
    · rw [if_neg h, if_neg h]
      exact congrArg _ (ih (a.TargetName :: seen))

/-- Removing a response with an empty entry list leaves every target's row
list unchanged. -/
theorem tableRows_middle_empty (rd : Renderers) (humanize : Bool) (name : String)
    (err : Option String) (l₁ l₂ : List FileStatResponse) (n : String) :
    tableRows rd humanize (l₁ ++ FileStatResponse.mk name err [] :: l₂) n =
      tableRows rd humanize (l₁ ++ l₂) n := by
  simp [tableRows, List.flatMap_append]

/-- A name is registered exactly when some response outside the seen set
carries it with a non-empty entry list. -/
theorem mem_tableTargetsAux (n : String) :
    ∀ (l : List FileStatResponse) (seen : List String),
      n ∈ tableTargetsAux seen l ↔
        n ∉ seen ∧ ∃ rsp ∈ l, rsp.TargetName = n ∧ rsp.rsp ≠ [] := by
  intro l
  induction l with
  | nil => intro seen; simp [tableTargetsAux]
  | cons a rest ih =>
    intro seen
    simp only [tableTargetsAux]
    by_cases h : a.rsp = [] ∨ a.TargetName ∈ seen
    · rw [if_pos h, ih]
      constructor
      · rintro ⟨hns, rsp, hmem, hname, hne⟩
        exact ⟨hns, rsp, List.mem_cons_of_mem a hmem, hname, hne⟩
      · rintro ⟨hns, rsp, hmem, hname, hne⟩
        rcases List.mem_cons.mp hmem with rfl | hmem'
        · rcases h with h1 | h2
          · exact absurd h1 hne
          · exact absurd (hname ▸ h2) hns
        · exact ⟨hns, rsp, hmem', hname, hne⟩
    · rw [if_neg h]
      push_neg at h
      obtain ⟨hne, hnotseen⟩ := h
      rw [List.mem_cons, ih (a.TargetName :: seen)]
      constructor
      · rintro (rfl | ⟨hns, rsp, hmem, hname, hrne⟩)
        · exact ⟨hnotseen, a, List.mem_cons_self a rest, rfl, hne⟩
        · have hns' : n ∉ seen := fun hc => hns (List.mem_cons_of_mem _ hc)
          exact ⟨hns', rsp, List.mem_cons_of_mem a hmem, hname, hrne⟩
      · rintro ⟨hns, rsp, hmem, hname, hrne⟩
        rcases List.mem_cons.mp hmem with rfl | hmem'
        · exact Or.inl hname.symm
        · by_cases hcase : n = a.TargetName
          · exact Or.inl hcase
          · refine Or.inr ⟨?_, rsp, hmem', hname, hrne⟩
            intro hc
            rcases List.mem_cons.mp hc with h1 | h2
            · exact hcase h1
            · exact hns h2

/-- Claim C10 (confirmed): a successful target whose walk returned zero
entries contributes no rows and its identity is entirely absent — the table
built with such a response equals the table built without it, and a target
name appears in the registered name list exactly when some response carries
it with at least one entry. -/
theorem c10_empty_target_absent (rd : Renderers) (humanize : Bool) (name : String)
    (err : Option String) (l₁ l₂ : List FileStatResponse) :
    statTable rd humanize (l₁ ++ FileStatResponse.mk name err [] :: l₂) =
      statTable rd humanize (l₁ ++ l₂) ∧
    ∀ n rs, n ∈ tableTargets rs ↔ ∃ rsp ∈ rs, rsp.TargetName = n ∧ rsp.rsp ≠ [] := by
  constructor
  · unfold statTable
    rw [show tableTargets (l₁ ++ FileStatResponse.mk name err [] :: l₂) = tableTargets (l₁ ++ l₂)
        from tableTargetsAux_middle_empty name err l₁ l₂ []]
    congr 1
    funext n
    rw [tableRows_middle_empty rd humanize name err l₁ l₂ n]
  · intro n rs
    rw [tableTargets, mem_tableTargetsAux n rs []]
    simp

/-! ## Claim C4: aggregation partitions the outcomes -/

/-- The aggregation loop's success list is exactly the error-free responses,
in arrival order. -/
theorem aggregate_snd (rsps : List FileStatResponse) :
    (aggregate rsps).2 = rsps.filter fun r => r.Err.isNone := by
  induction rsps with
  | nil => rfl
  | cons r rest ih =>
    cases hE : r.Err with
    | none => simp [aggregate, hE, List.filter_cons, ih]
    | some e => simp [aggregate, hE, List.filter_cons, ih]

/-- The aggregation loop's error list is exactly the wrapped errors of the
failing responses, in arrival order. -/
theorem aggregate_fst (rsps : List FileStatResponse) :
    (aggregate rsps).1 =
      (rsps.filter fun r => r.Err.isSome).map fun r => wrapErr r.TargetName (r.Err.getD "") := by
  induction rsps with
  | nil => rfl
  | cons r rest ih =>
    cases hE : r.Err with
    | none => simp [aggregate, hE, List.filter_cons, ih]
    | some e => simp [aggregate, hE, List.filter_cons, ih]

/-- No outcome is dropped by aggregation: the two lists' lengths sum to the
number of responses. -/
theorem aggregate_length (rsps : List FileStatResponse) :
    (aggregate rsps).1.length + (aggregate rsps).2.length = rsps.length := by
  induction rsps with
  | nil => rfl
  | cons r rest ih => cases hE : r.Err <;> simp [aggregate, hE] <;> omega

/-- Claim C4 (confirmed): for any number of per-target outcomes with
pairwise-distinct target identities, aggregation sends every outcome to
exactly one of the two sets — the success set holds exactly the error-free
outcomes, the failure set exactly the wrapped failing ones, their sizes sum
to the number of outcomes, and no identity occurs on both sides.  The
all-fail and all-succeed cases are the instances where one filter is
empty. -/
theorem c4_aggregate_partition (rsps : List FileStatResponse)
    (hnd : (rsps.map fun r => r.TargetName).Nodup) :
    (aggregate rsps).2 = (rsps.filter fun r => r.Err.isNone) ∧
    (aggregate rsps).1 =
      ((rsps.filter fun r => r.Err.isSome).map fun r => wrapErr r.TargetName (r.Err.getD "")) ∧
    (aggregate rsps).1.length + (aggregate rsps).2.length = rsps.length ∧
    ∀ n, ¬ (n ∈ ((aggregate rsps).2.map fun r => r.TargetName) ∧
            n ∈ ((rsps.filter fun r => r.Err.isSome).map fun r => r.TargetName)) := by
  refine ⟨aggregate_snd rsps, aggregate_fst rsps, aggregate_length rsps, ?_⟩
  rintro n ⟨h1, h2⟩
  rw [aggregate_snd] at h1
  rcases List.mem_map.mp h1 with ⟨a, ha, han⟩
  rcases List.mem_map.mp h2 with ⟨b, hb, hbn⟩
  have ha' := List.mem_filter.mp ha
  have hb' := List.mem_filter.mp hb
  have hab : a = b := List.inj_on_of_nodup_map hnd ha'.1 hb'.1 (by rw [han, hbn])
  have hnone := ha'.2
  have hsome := hb'.2
  rw [hab] at hnone
  rw [Option.isNone_iff_eq_none] at hnone
  rw [hnone] at hsome
  cases hsome

/-- Two per-target outcomes with distinct identities: one success, one
connection failure. -/
def c4rsps : List FileStatResponse :=
  [⟨"targetA", none, [⟨⟨"/etc/a", 10, 0, 0, 0⟩, false⟩]⟩,
   ⟨"targetB", some "connection refused", []⟩]

/-- Claim C4 (witness): the partition theorem applied to a concrete mixed
success/failure outcome list. -/
theorem c4_witness :
    (aggregate c4rsps).2 = (c4rsps.filter fun r => r.Err.isNone) ∧
    (aggregate c4rsps).1 =
      ((c4rsps.filter fun r => r.Err.isSome).map fun r => wrapErr r.TargetName (r.Err.getD "")) ∧
    (aggregate c4rsps).1.length + (aggregate c4rsps).2.length = c4rsps.length ∧
    ∀ n, ¬ (n ∈ ((aggregate c4rsps).2.map fun r => r.TargetName) ∧
            n ∈ ((c4rsps.filter fun r => r.Err.isSome).map fun r => r.TargetName)) :=
  c4_aggregate_partition c4rsps (by decide)

/-! ## Claim C6: depth-first pre-order traversal -/

/-- Unfolding equation of `specWalk` at positive fuel. -/
theorem specWalk_succ (probe : Probe) (recursive : Bool) (fuel : Nat) (path : String) :
    specWalk probe recursive (fuel + 1) path =
      match probe.stat path with
      | Except.error e => Except.error e
      | Except.ok stats =>
        Except.ok (stats.flatMap fun si =>
          match probe.isDir si.path with
          | Except.error _ => [FileStatInfo.mk si false]
          | Except.ok d =>
            FileStatInfo.mk si d ::
              (if d && recursive then subEntries (specWalk probe recursive fuel si.path) else [])) := rfl

/-- Claim C6 (confirmed): when the directory-classification probe never
errors, the walker coincides with the reference depth-first pre-order
traversal `specWalk` / `specWalkSeeds`: seed paths in caller-given order,
entries of one stat call in returned order, and the entries obtained by
recursing into a directory entry placed immediately after that entry,
before its later siblings. -/
theorem c6_preorder_refinement (probe : Probe) (recursive : Bool)
    (htot : ∀ q, ∃ b, probe.isDir q = Except.ok b) :
    (∀ fuel path, fileStat probe recursive fuel path = specWalk probe recursive fuel path) ∧
    (∀ fuel seeds, FileStat probe recursive fuel seeds = specWalkSeeds probe recursive fuel seeds) := by
  have hw : ∀ fuel path, fileStat probe recursive fuel path = specWalk probe recursive fuel path := by
    intro fuel
    induction fuel with
    | zero => intro path; rfl
    | succ n ih =>
      intro path
      rw [fileStat_succ, specWalk_succ]
      cases hstat : probe.stat path with
      | error e => rfl
      | ok stats =>
        refine congrArg Except.ok ?_
        refine congrArg stats.flatMap (funext fun si => ?_)
        obtain ⟨b, hb⟩ := htot si.path
        rw [hb]
        cases b <;> cases recursive <;> simp [ih]
  refine ⟨hw, ?_⟩
  intro fuel seeds
  induction seeds with
  | nil => rfl
  | cons p rest ihs =>
    show (match fileStat probe recursive fuel p with
      | Except.error e => Except.error e
      | Except.ok fsi =>
        match FileStat probe recursive fuel rest with
        | Except.error e => Except.error e
        | Except.ok acc => Except.ok (fsi ++ acc)) = _
    rw [hw, ihs]
    rfl

/-- A two-level directory probe whose classification never errors. -/
def c6probe : Probe where
  stat := fun p =>
    if p = "/d" then Except.ok [⟨"/d/sub", 0, 0, 0, 0⟩, ⟨"/d/f", 1, 0, 0, 0⟩]
    else if p = "/d/sub" then Except.ok [⟨"/d/sub/x", 2, 0, 0, 0⟩]
    else Except.ok []
  isDir := fun q => Except.ok (q = "/d" || q = "/d/sub")

/-- Claim C6 (witness): the refinement applied to `c6probe` on seed `/d`
with recursion enabled. -/
theorem c6_witness :
    FileStat c6probe true 3 ["/d"] = specWalkSeeds c6probe true 3 ["/d"] :=
  (c6_preorder_refinement c6probe true fun _ => ⟨_, rfl⟩).2 3 ["/d"]

/-! ## Claim C3: path uniqueness -/

instance (p q : String) : Decidable (strictExtension p q) :=
  inferInstanceAs (Decidable (_ ∧ _))

instance (p q : String) : Decidable (incomparable p q) :=
  inferInstanceAs (Decidable (_ ∧ _))

/-- Strict path extension is transitive. -/
theorem strictExtension_trans {a b c : String}
    (h1 : strictExtension a b) (h2 : strictExtension b c) : strictExtension a c :=
  ⟨h1.1.trans h2.1, h1.2.trans h2.2⟩

/-- Two prefixes of the same list are comparable. -/
theorem prefixComparable {x a b : List Char} (ha : a <+: x) (hb : b <+: x) :
    a <+: b ∨ b <+: a := by
  rcases Nat.le_total a.length b.length with h | h
  · exact Or.inl (List.prefix_of_prefix_length_le ha hb h)
  · exact Or.inr (List.prefix_of_prefix_length_le hb ha h)

/-- Under a tree-like oracle, every entry of a single-path walk has a path
strictly extending the queried path. -/
theorem fileStat_mem_strictExtension (probe : Probe) (recursive : Bool) (ht : treeLike probe) :
    ∀ fuel path l, fileStat probe recursive fuel path = Except.ok l →
      ∀ e ∈ l, strictExtension path e.si.path := by
  intro fuel
  induction fuel with
  | zero => intro path l h; exact absurd h (by simp [fileStat])
  | succ n ih =>
    intro path l h e he
    rw [fileStat_succ] at h
    cases hstat : probe.stat path with
    | error err => rw [hstat] at h; cases h
    | ok stats =>
      rw [hstat] at h
      injection h with h
      subst h
      rcases List.mem_flatMap.mp he with ⟨si, hsi, hei⟩
      have hsix : strictExtension path si.path := (ht path stats hstat).2 si hsi
      cases hd : probe.isDir si.path with
      | error err => rw [hd] at hei; cases hei
      | ok d =>
        rw [hd] at hei
        rcases List.mem_cons.mp hei with rfl | hsub
        · exact hsix
        · by_cases hrec : (d && recursive) = true
          · rw [if_pos hrec] at hsub
            cases hrec2 : fileStat probe recursive n si.path with
            | error err2 => rw [hrec2] at hsub; cases hsub
            | ok sub =>
              rw [hrec2] at hsub
              exact strictExtension_trans hsix (ih si.path sub hrec2 e hsub)
          · rw [if_neg hrec] at hsub; cases hsub

/-- Gluing lemma for `List.flatMap`: blocks over pairwise prefix-incomparable
roots, each block's paths extending its root and being duplicate-free, give
a duplicate-free concatenation. -/
theorem flatMap_paths_nodup (f : StatInfo → List FileStatInfo) :
    ∀ stats : List StatInfo,
      stats.Pairwise (fun a b => incomparable a.path b.path) →
      (∀ si ∈ stats, ∀ e ∈ f si, si.path.data <+: e.si.path.data) →
      (∀ si ∈ stats, ((f si).map fun e => e.si.path).Nodup) →
      ((stats.flatMap f).map fun e => e.si.path).Nodup := by
  intro stats
  induction stats with
  | nil => intro _ _ _; simp
  | cons s rest ih =>
    intro hpair hext hnd
    rw [List.flatMap_cons, List.map_append]
    apply List.Nodup.append
    · exact hnd s (List.mem_cons_self s rest)
    · exact ih hpair.of_cons (fun si h => hext si (List.mem_cons_of_mem _ h))
        (fun si h => hnd si (List.mem_cons_of_mem _ h))
    · intro x hx1 hx2
      rcases List.mem_map.mp hx1 with ⟨e1, he1, hpe1⟩
      rcases List.mem_map.mp hx2 with ⟨e2, he2, hpe2⟩
      rcases List.mem_flatMap.mp he2 with ⟨si2, hsi2, he2'⟩
      have h1 : s.path.data <+: e1.si.path.data :=
        hext s (List.mem_cons_self s rest) e1 he1
      have h2 : si2.path.data <+: e2.si.path.data :=
        hext si2 (List.mem_cons_of_mem _ hsi2) e2 he2'
      have hxx : e2.si.path = e1.si.path := by rw [hpe1, hpe2]
      rw [hxx] at h2
      have hinc : incomparable s.path si2.path :=
        (List.pairwise_cons.mp hpair).1 si2 hsi2
      rcases prefixComparable h1 h2 with hc | hc
      · exact hinc.1 hc
      · exact hinc.2 hc

/-- Under a tree-like oracle, a single-path walk never contains two entries
with the same path. -/
theorem fileStat_paths_nodup (probe : Probe) (recursive : Bool) (ht : treeLike probe) :
    ∀ fuel path l, fileStat probe recursive fuel path = Except.ok l →
      (l.map fun e => e.si.path).Nodup := by
  intro fuel
  induction fuel with
  | zero => intro path l h; exact absurd h (by simp [fileStat])
  | succ n ih =>
    intro path l h
    rw [fileStat_succ] at h
    cases hstat : probe.stat path with
    | error err => rw [hstat] at h; cases h
    | ok stats =>
      rw [hstat] at h
      injection h with h
      subst h
      apply flatMap_paths_nodup
      · exact (ht path stats hstat).1
      · intro si hsi e he
        cases hd : probe.isDir si.path with
        | error err => rw [hd] at he; cases he
        | ok d =>
          rw [hd] at he
          rcases List.mem_cons.mp he with rfl | hsub
          · exact List.prefix_refl _
          · by_cases hrec : (d && recursive) = true
            · rw [if_pos hrec] at hsub
              cases hrec2 : fileStat probe recursive n si.path with
              | error err2 => rw [hrec2] at hsub; cases hsub
              | ok sub =>
                rw [hrec2] at hsub
                exact (fileStat_mem_strictExtension probe recursive ht n si.path sub hrec2
                  e hsub).1
            · rw [if_neg hrec] at hsub; cases hsub
      · intro si hsi
        cases hd : probe.isDir si.path with
        | error err => simp
        | ok d =>
          show (List.map (fun e => e.si.path)
              (FileStatInfo.mk si d ::
                (if (d && recursive) = true then subEntries (fileStat probe recursive n si.path)
                 else []))).Nodup
          by_cases hrec : (d && recursive) = true
          · rw [if_pos hrec]
            cases hrec2 : fileStat probe recursive n si.path with
            | error err2 => simp [subEntries]
            | ok sub =>
              rw [List.map_cons]
              refine List.nodup_cons.mpr ⟨?_, ih si.path sub hrec2⟩
              intro hc
              rcases List.mem_map.mp hc with ⟨e, hesub, hep⟩
              have hse := (fileStat_mem_strictExtension probe recursive ht n si.path sub hrec2
                e hesub).2
              rw [hep] at hse
              exact Nat.lt_irrefl _ hse
          · rw [if_neg hrec]
            simp

/-- Every entry of a multi-seed walk extends one of the seed paths. -/
theorem FileStat_mem_strictExtension (probe : Probe) (recursive : Bool) (ht : treeLike probe)
    (fuel : Nat) :
    ∀ seeds l, FileStat probe recursive fuel seeds = Except.ok l →
      ∀ e ∈ l, ∃ p ∈ seeds, strictExtension p e.si.path := by
  intro seeds
  induction seeds with
  | nil =>
    intro l h e he
    injection h with h
    subst h
    cases he
  | cons p rest ih =>
    intro l h e he
    rw [FileStat] at h
    cases hp : fileStat probe recursive fuel p with
    | error err => rw [hp] at h; cases h
    | ok fsi =>
      rw [hp] at h
      cases hr : FileStat probe recursive fuel rest with
      | error err => rw [hr] at h; cases h
      | ok acc =>
        rw [hr] at h
        injection h with h
        subst h
        rcases List.mem_append.mp he with h1 | h2
        · exact ⟨p, List.mem_cons_self p rest,
            fileStat_mem_strictExtension probe recursive ht fuel p fsi hp e h1⟩
        · rcases ih acc hr e h2 with ⟨q, hq, hqe⟩
          exact ⟨q, List.mem_cons_of_mem p hq, hqe⟩

/-- Claim C3 (amended, theorem): when the stat oracle is tree-like and the
seed paths are pairwise prefix-incomparable, the path field is unique within
the target's final result list — no two entries of the walk's result share a
path. -/
theorem c3_amended_paths_nodup (probe : Probe) (recursive : Bool) (fuel : Nat)
    (seeds : List String) (l : List FileStatInfo)
    (ht : treeLike probe) (hseeds : seeds.Pairwise incomparable)
    (h : FileStat probe recursive fuel seeds = Except.ok l) :
    (l.map fun e => e.si.path).Nodup := by
  induction seeds generalizing l with
  | nil =>
    injection h with h
    subst h
    simp
  | cons p rest ih =>
    rw [FileStat] at h
    cases hp : fileStat probe recursive fuel p with
    | error err => rw [hp] at h; cases h
    | ok fsi =>
      rw [hp] at h
      cases hr : FileStat probe recursive fuel rest with
      | error err => rw [hr] at h; cases h
      | ok acc =>
        rw [hr] at h
        injection h with h
        subst h
        rw [List.map_append]
        apply List.Nodup.append
        · exact fileStat_paths_nodup probe recursive ht fuel p fsi hp
        · exact ih acc hseeds.of_cons hr
        · intro x hx1 hx2
          rcases List.mem_map.mp hx1 with ⟨e1, he1, hpe1⟩
          rcases List.mem_map.mp hx2 with ⟨e2, he2, hpe2⟩
          have h1 : strictExtension p e1.si.path :=
            fileStat_mem_strictExtension probe recursive ht fuel p fsi hp e1 he1
          rcases FileStat_mem_strictExtension probe recursive ht fuel rest acc hr e2 he2
            with ⟨q, hq, h2⟩
          have hxx : e2.si.path = e1.si.path := by rw [hpe1, hpe2]
          rw [hxx] at h2
          rw [← hpe1] at hx1 hx2
          have hinc : incomparable p q := (List.pairwise_cons.mp hseeds).1 q hq
          rcases prefixComparable h1.1 h2.1 with hc | hc
          · exact hinc.1 hc
          · exact hinc.2 hc

/-- Probe for the C3 counterexample: stat of `/a` returns one entry, nothing
is a directory. -/
def c3probe : Probe where
  stat := fun p => if p = "/a" then Except.ok [⟨"/a/f", 0, 0, 0, 0⟩] else Except.ok []
  isDir := fun _ => Except.ok false

/-- Claim C3 (counterexample): with the duplicated seed path `/a` given
twice — overlapping seed paths, which the claim says are still covered —
the walk succeeds and returns the entry `/a/f` twice, so the path field is
not unique within the target's result list. -/
theorem c3_counterexample :
    FileStat c3probe false 1 ["/a", "/a"] =
      Except.ok [⟨⟨"/a/f", 0, 0, 0, 0⟩, false⟩, ⟨⟨"/a/f", 0, 0, 0, 0⟩, false⟩] ∧
    ¬ (([⟨⟨"/a/f", 0, 0, 0, 0⟩, false⟩, ⟨⟨"/a/f", 0, 0, 0, 0⟩, false⟩] : List FileStatInfo).map
        fun e => e.si.path).Nodup := by
  constructor
  · rfl
  · decide

/-- A two-level tree-like probe: `/a` lists children `/a/b` and `/a/c`, and
`/a/b` lists `/a/b/x`. -/
def c3wprobe : Probe where
  stat := fun p =>
    if p = "/a" then Except.ok [⟨"/a/b", 0, 0, 0, 0⟩, ⟨"/a/c", 0, 0, 0, 0⟩]
    else if p = "/a/b" then Except.ok [⟨"/a/b/x", 0, 0, 0, 0⟩]
    else Except.ok []
  isDir := fun q => Except.ok (q = "/a" || q = "/a/b")

/-- The witness probe is tree-like. -/
theorem c3wprobe_treeLike : treeLike c3wprobe := by
  intro p stats h
  simp only [c3wprobe] at h
  split at h
  · rename_i hp
    injection h with h
    subst h
    subst hp
    exact ⟨by decide, by decide⟩
  · split at h
    · rename_i hp
      injection h with h
      subst h
      subst hp
      exact ⟨by decide, by decide⟩
    · injection h with h
      subst h
      exact ⟨List.Pairwise.nil, by simp⟩

/-- Claim C3 (witness): the amended uniqueness theorem applied to the
tree-like probe `c3wprobe` on seed `/a` with recursion enabled. -/
theorem c3_amended_witness :
    (([⟨⟨"/a/b", 0, 0, 0, 0⟩, true⟩, ⟨⟨"/a/b/x", 0, 0, 0, 0⟩, false⟩,
       ⟨⟨"/a/c", 0, 0, 0, 0⟩, false⟩] : List FileStatInfo).map fun e => e.si.path).Nodup :=
  c3_amended_paths_nodup c3wprobe true 3 ["/a"] _ c3wprobe_treeLike (by decide) rfl

/-! ## Claim C8: deterministic rendering -/

/-- With pairwise-distinct target names, none already seen, the registered
name list is exactly the names of the responses with a non-empty entry
list, in arrival order. -/
theorem tableTargetsAux_of_nodup :
    ∀ (r : List FileStatResponse) (seen : List String),
      ((r.map fun x => x.TargetName).Nodup) →
      (∀ rsp ∈ r, rsp.TargetName ∉ seen) →
      tableTargetsAux seen r =
        (r.filter fun rsp => !rsp.rsp.isEmpty).map fun rsp => rsp.TargetName := by
  intro r
  induction r with
  | nil => intro seen _ _; rfl
  | cons a rest ih =>
    intro seen hnd hns
    have hndr : ((rest.map fun x => x.TargetName).Nodup) := (List.nodup_cons.mp hnd).2
    have hna : a.TargetName ∉ rest.map fun x => x.TargetName := (List.nodup_cons.mp hnd).1
    rw [List.filter_cons]
    by_cases ha : a.rsp = []
    · rw [show tableTargetsAux seen (a :: rest) = tableTargetsAux seen rest from by
        rw [tableTargetsAux]; exact if_pos (Or.inl ha)]
      have hcond : (!a.rsp.isEmpty) = false := by simp [ha]
      rw [hcond]
      simp only [Bool.false_eq_true, if_false]
      exact ih seen hndr fun rsp h => hns rsp (List.mem_cons_of_mem _ h)
    · have hnseen : a.TargetName ∉ seen := hns a (List.mem_cons_self a rest)
      rw [show tableTargetsAux seen (a :: rest) =
          a.TargetName :: tableTargetsAux (a.TargetName :: seen) rest from by
        rw [tableTargetsAux]; exact if_neg (by rintro (h1 | h2); exact ha h1; exact hnseen h2)]
      have hcond : (!a.rsp.isEmpty) = true := by simp [ha]
      rw [hcond]
      simp only [if_true]
      rw [List.map_cons]
      refine congrArg _ (ih (a.TargetName :: seen) hndr ?_)
      intro rsp h hc
      rcases List.mem_cons.mp hc with h1 | h2
      · exact hna (h1 ▸ List.mem_map_of_mem (fun x => x.TargetName) h)
      · exact hns rsp (List.mem_cons_of_mem _ h) h2

/-- Permuting responses with pairwise-distinct names leaves the sorted
target-name list unchanged. -/
theorem tableTargets_perm_eq (r₁ r₂ : List FileStatResponse)
    (hperm : r₁.Perm r₂) (hnd : ((r₁.map fun x => x.TargetName).Nodup)) :
    List.insertionSort (fun a b : String => a ≤ b) (tableTargets r₁) =
      List.insertionSort (fun a b : String => a ≤ b) (tableTargets r₂) := by
  have hnd₂ : ((r₂.map fun x => x.TargetName).Nodup) :=
    ((hperm.map fun x => x.TargetName).nodup_iff).mp hnd
  rw [tableTargets, tableTargets,
    tableTargetsAux_of_nodup r₁ [] hnd (by simp),
    tableTargetsAux_of_nodup r₂ [] hnd₂ (by simp)]
  have hp :
      (((r₁.filter fun rsp => !rsp.rsp.isEmpty).map fun rsp => rsp.TargetName)).Perm
        ((r₂.filter fun rsp => !rsp.rsp.isEmpty).map fun rsp => rsp.TargetName) :=
    (hperm.filter _).map _
  refine @List.eq_of_perm_of_sorted String (fun a b : String => a ≤ b) ?_ _ _ ?_ ?_ ?_
  · infer_instance
  · exact ((List.perm_insertionSort _ _).trans hp).trans (List.perm_insertionSort _ _).symm
  · exact List.sorted_insertionSort _ _
  · exact List.sorted_insertionSort _ _

/-- Factoring of a flatMap whose blocks are empty off one name through a
filter on that name. -/
theorem flatMap_if_eq_filter {β : Type} (name : String) (g : FileStatResponse → List β) :
    ∀ r : List FileStatResponse,
      (r.flatMap fun rsp => if rsp.TargetName = name then g rsp else []) =
        (r.filter fun rsp => rsp.TargetName == name).flatMap g := by
  intro r
  induction r with
  | nil => rfl
  | cons a rest ih =>
    rw [List.flatMap_cons, List.filter_cons]
    by_cases h : a.TargetName = name
    · simp [h, ih]
    · simp [h, ih]

/-- With pairwise-distinct names, permuting the responses leaves the list of
responses carrying any given name unchanged (it has at most one element). -/
theorem filter_name_eq_of_perm (r₁ r₂ : List FileStatResponse) (hperm : r₁.Perm r₂)
    (hnd : ((r₁.map fun x => x.TargetName).Nodup)) (name : String) :
    (r₁.filter fun rsp => rsp.TargetName == name) =
      (r₂.filter fun rsp => rsp.TargetName == name) := by
  have hp : ((r₁.filter fun rsp => rsp.TargetName == name)).Perm
      (r₂.filter fun rsp => rsp.TargetName == name) := hperm.filter _
  cases hc : r₁.filter fun rsp => rsp.TargetName == name with
  | nil =>
    rw [hc] at hp
    exact (List.Perm.eq_nil hp.symm).symm
  | cons a t =>
    have ht : t = [] := by
      cases t with
      | nil => rfl
      | cons b t2 =>
        exfalso
        have hsub : List.Sublist (a :: b :: t2) r₁ := hc ▸ List.filter_sublist r₁
        have hndr : r₁.Nodup := List.Nodup.of_map _ hnd
        have hnd3 : (a :: b :: t2).Nodup := List.Sublist.nodup hsub hndr
        have hamem : a ∈ r₁ := hsub.mem (List.mem_cons_self a (b :: t2))
        have hbmem : b ∈ r₁ := hsub.mem (List.mem_cons_of_mem a (List.mem_cons_self b t2))
        have hafilt : a ∈ r₁.filter fun rsp => rsp.TargetName == name := by
          rw [hc]; exact List.mem_cons_self _ _
        have hbfilt : b ∈ r₁.filter fun rsp => rsp.TargetName == name := by
          rw [hc]; exact List.mem_cons_of_mem a (List.mem_cons_self b t2)
        have haname : a.TargetName = name := by
          have := List.of_mem_filter hafilt
          exact beq_iff_eq.mp this
        have hbname : b.TargetName = name := by
          have := List.of_mem_filter hbfilt
          exact beq_iff_eq.mp this
        have hab : a = b :=
          List.inj_on_of_nodup_map hnd hamem hbmem (by rw [haname, hbname])
        have : a ∉ b :: t2 := (List.nodup_cons.mp hnd3).1
        exact this (hab ▸ List.mem_cons_self b t2)
    subst ht
    rw [hc] at hp
    exact (List.perm_singleton.mp hp.symm).symm

/-- With pairwise-distinct names, permuting the responses leaves every
target's row list unchanged. -/
theorem tableRows_eq_of_perm (rd : Renderers) (humanize : Bool)
    (r₁ r₂ : List FileStatResponse) (hperm : r₁.Perm r₂)
    (hnd : ((r₁.map fun x => x.TargetName).Nodup)) (name : String) :
    tableRows rd humanize r₁ name = tableRows rd humanize r₂ name := by
  unfold tableRows
  rw [flatMap_if_eq_filter name (fun rsp => rsp.rsp.map (statRow rd humanize rsp.TargetName)) r₁,
    flatMap_if_eq_filter name (fun rsp => rsp.rsp.map (statRow rd humanize rsp.TargetName)) r₂,
    filter_name_eq_of_perm r₁ r₂ hperm hnd name]

/-- Claim C8 (confirmed): the rendered table is deterministic in the
aggregator's arrival order — for any two permutations of the same per-target
results (targets having pairwise-distinct identities) the formatter produces
identical output, because target identities are sorted lexicographically and
each target's rows are sorted by path, overriding the walker's traversal
order. -/
theorem c8_deterministic_render (rd : Renderers) (humanize : Bool)
    (r₁ r₂ : List FileStatResponse) (hperm : r₁.Perm r₂)
    (hnd : ((r₁.map fun x => x.TargetName).Nodup)) :
    statTable rd humanize r₁ = statTable rd humanize r₂ := by
  unfold statTable
  rw [tableTargets_perm_eq r₁ r₂ hperm hnd]
  congr 1
  funext name
  rw [tableRows_eq_of_perm rd humanize r₁ r₂ hperm hnd name]

/-- Concrete renderers for the C8 witness. -/
def c8rd : Renderers := ⟨toString, toString, toString, toString⟩

/-- First witness response: target A with two files, walker order not
path-sorted. -/
def c8rA : FileStatResponse :=
  ⟨"targetA", none, [⟨⟨"/etc/b", 20, 0, 0, 0⟩, false⟩, ⟨⟨"/etc/a", 10, 0, 0, 0⟩, false⟩]⟩

/-- Second witness response: target B with one directory. -/
def c8rB : FileStatResponse :=
  ⟨"targetB", none, [⟨⟨"/tmp/x", 1, 0, 0, 0⟩, true⟩]⟩

/-- Claim C8 (witness): the determinism theorem applied to the two arrival
orders of the same two per-target results. -/
theorem c8_witness : statTable c8rd false [c8rA, c8rB] = statTable c8rd false [c8rB, c8rA] :=
  c8_deterministic_render c8rd false [c8rA, c8rB] [c8rB, c8rA] (by decide) (by decide)

end Gnoic
